import Mathlib

/-!
Verification development for the bananapod-srv document archive server
(`main.go`).  The Go source is shallowly embedded: each handler and helper
becomes a pure Lean function over an explicit model of the filesystem and of
the PDF collaborator, and the package-level caches become explicit
association lists threaded through the functions.
-/

set_option autoImplicit false

/-! ## String constants appearing in the source -/

def dotStr : String := "."

def slashStr : String := "/"

def dotPdf : String := ".pdf"

def emptyStr : String := ""

def kId : String := "id"

def kName : String := "name"

def kSize : String := "size"

def kTimestamp : String := "timestamp"

def kPages : String := "pages"

def kContent : String := "content"

def openErrText : String := "open failed"

def statErrText : String := "stat failed"

def pdfErrText : String := "pdf open failed"

/-- The error text `DocThumbnail` writes for an id missing from the document
cache: `fmt.Fprintf(w, "Requesting unknown document: %v", docId)`. -/
def unknownDocText (docId : Nat) : String :=
  "Requesting unknown document: " ++ toString docId

/-! ## UTF-8 bytes of a string (collaborator model of `[]byte(s)`) -/

/-- UTF-8 encoding of a single code point, as byte values. -/
def utf8Bytes (c : Char) : List Nat :=
  let n := c.toNat
  if n < 128 then [n]
  else if n < 2048 then
    [192 + n / 64, 128 + n % 64]
  else if n < 65536 then
    [224 + n / 4096, 128 + (n / 64) % 64, 128 + n % 64]
  else
    [240 + n / 262144, 128 + (n / 4096) % 64, 128 + (n / 64) % 64, 128 + n % 64]

/-- The UTF-8 bytes of a Go string. -/
def strBytes (s : String) : List Nat :=
  s.toList.flatMap utf8Bytes

/-! ## FingerprintGenerator: FNV-1a 64-bit over the path bytes
(`hash/fnv`, `h.Write([]byte(filepath)); h.Sum64()`). -/

def fnvOffsetBasis : Nat := 14695981039346656037

def fnvPrime : Nat := 1099511628211

/-- FNV-1a 64-bit hash of the UTF-8 bytes of a string, with 64-bit wraparound
made explicit by reduction modulo 2^64. -/
def fnv64a (s : String) : Nat :=
  (strBytes s).foldl (fun h b => ((h ^^^ b) * fnvPrime) % (2 ^ 64)) fnvOffsetBasis

/-! ## Base64 (collaborator model of `base64.StdEncoding.EncodeToString`) -/

def b64Alpha : List Char :=
  "ABCDEFGHIJKLMNOPQRSTUVWXYZabcdefghijklmnopqrstuvwxyz0123456789+/".toList

def b64CharOf (n : Nat) : Char := b64Alpha.getD n 'A'

/-- Standard base64 of a byte list, with `=` padding. -/
def b64Encode : List Nat → List Char
  | [] => []
  | [a] => [b64CharOf (a / 4), b64CharOf (a % 4 * 16), '=', '=']
  | [a, b] => [b64CharOf (a / 4), b64CharOf (a % 4 * 16 + b / 16),
               b64CharOf (b % 16 * 4), '=']
  | a :: b :: c :: rest =>
    b64CharOf (a / 4) :: b64CharOf (a % 4 * 16 + b / 16) ::
    b64CharOf (b % 16 * 4 + c / 64) :: b64CharOf (c % 64) :: b64Encode rest

def base64Encode (s : String) : String := String.mk (b64Encode (strBytes s))

/-! ## `path.Base` -/

/-- The Go function `path.Base`: strip trailing slashes, then keep the suffix after the
last slash; empty path gives `"."`, an all-slash path gives `"/"`. -/
def goPathBase (p : String) : String :=
  if p.isEmpty then dotStr
  else
    let r := p.toList.reverse.dropWhile (fun c => c == '/')
    if r.isEmpty then slashStr
    else String.mk (r.takeWhile (fun c => !(c == '/'))).reverse

/-- Go `strings.HasPrefix`, on code points (the prefixes compared in the
source are ASCII). -/
def goHasPrefix (pre s : String) : Bool := pre.toList.isPrefixOf s.toList

/-- Go `strings.HasSuffix`; also what `path.Match("*.pdf", name)` amounts to
on a single slash-free path component. -/
def goHasSuffix (suf s : String) : Bool :=
  suf.toList.reverse.isPrefixOf s.toList.reverse

/-! ## `fmt.Sscanf(name, "%d_%d_%d_%d_%d_%d", ...)`

Collaborator model of the Go `fmt` scanning for this fixed format string: each
`%d` skips leading blanks, then reads an optionally signed non-empty run of
decimal digits (the `fmt` package accepts digit-separating underscores only
for `%v` with a base prefix, never for `%d`); each literal `_` must match an
underscore exactly.  The scan succeeds (`numparsed == 6 && err == nil`)
exactly when all six integers and all five separators match. -/

def isScanBlank (c : Char) : Bool := c == ' ' || c == '\t'

def digitVal (c : Char) : Nat := c.toNat - 48

/-- Read a non-empty run of decimal digits. -/
def scanNatDigits (cs : List Char) : Option (Nat × List Char) :=
  let ds := cs.takeWhile Char.isDigit
  if ds.isEmpty then none
  else some (ds.foldl (fun a c => a * 10 + digitVal c) 0, cs.dropWhile Char.isDigit)

/-- One `%d` verb: skip blanks, optional sign, digits. -/
def scanInt (cs : List Char) : Option (Int × List Char) :=
  let cs1 := cs.dropWhile isScanBlank
  match cs1 with
  | '-' :: rest => (scanNatDigits rest).map (fun p => (-(p.1 : Int), p.2))
  | '+' :: rest => (scanNatDigits rest).map (fun p => ((p.1 : Int), p.2))
  | _ => (scanNatDigits cs1).map (fun p => ((p.1 : Int), p.2))

/-- One literal `_` of the format string. -/
def expectUS : List Char → Option (List Char)
  | c :: rest => if c == '_' then some rest else none
  | [] => none

/-- The full six-field scan of the filename. -/
def sscanf6 (s : String) : Option (Int × Int × Int × Int × Int × Int) :=
  (scanInt s.toList).bind (fun p1 =>
  (expectUS p1.2).bind (fun r1 =>
  (scanInt r1).bind (fun p2 =>
  (expectUS p2.2).bind (fun r2 =>
  (scanInt r2).bind (fun p3 =>
  (expectUS p3.2).bind (fun r3 =>
  (scanInt r3).bind (fun p4 =>
  (expectUS p4.2).bind (fun r4 =>
  (scanInt r4).bind (fun p5 =>
  (expectUS p5.2).bind (fun r5 =>
  (scanInt r5).map (fun p6 =>
  (p1.1, p2.1, p3.1, p4.1, p5.1, p6.1))))))))))))

/-! ## Time -/

/-- Instants (`time.Time`) are modelled as integers with `After` as strict
order; nothing in the source compares times other than through `After`. -/
abbrev GoTime := Int

/-- Modelled collaborator `time.Date(y, mo, d, h, mi, s, 0, loc)`: an abstract
strictly monotone encoding of the six fields into an instant.  The claims
never depend on calendar normalisation, only on which instant expression the
record holds. -/
def goDate (y mo d h mi s : Int) : GoTime :=
  (((y * 400 + mo * 32 + d) * 24 + h) * 60 + mi) * 60 + s

/-- The method `time.Time.After`: strict comparison of instants. -/
def timeAfter (a b : GoTime) : Bool := decide (b < a)

/-! ## Data model (`ArchiveCategory`, `ArchiveDoc`, `ArchiveDocThumb`) -/

structure ArchiveCategory where
  name : String
  elements : Nat
deriving DecidableEq

structure ArchiveDoc where
  id : Nat
  name : String
  size : Int
  createDate : GoTime
  fileDate : GoTime
  pages : Int
  content : String
  filePath : String
deriving DecidableEq

structure ArchiveDocThumb where
  id : Nat
  thumb : Nat
  encoding : List Nat
deriving DecidableEq

/-- The comparator of `ArchiveDocs.Less`:
`slice[i].FileDate.After(slice[j].FileDate)`. -/
def docLess (a b : ArchiveDoc) : Bool := timeAfter a.fileDate b.fileDate

abbrev DocCache := List (Nat × ArchiveDoc)

abbrev ThumbCache := List (Nat × ArchiveDocThumb)

/-! ## The world: filesystem and PDF collaborators

`rootEntries` are the immediate children of the archive root in the order
`filepath.Glob` enumerates them (directory entry names are single non-empty
path components without slashes).  `fileMeta` models `os.Open`+`Stat` on a
path, `pdfMeta` models `poppler.Open`, `GetNPages` and first-page `Text`,
`renderImage` models `Page.Render(300)` (an abstract raster id) and
`jpegBytes` models `jpeg.Encode` into the byte buffer. -/

structure ChildEntry where
  name : String
  isDir : Bool
deriving DecidableEq

structure RootEntry where
  name : String
  isDir : Bool
  children : List ChildEntry
deriving DecidableEq

structure FileMeta where
  openOk : Bool
  statOk : Bool
  size : Int
  modTime : GoTime

structure PdfMeta where
  openOk : Bool
  nPages : Int
  firstPageText : String

structure World where
  rootEntries : List RootEntry
  fileMeta : String → FileMeta
  pdfMeta : String → PdfMeta
  renderImage : String → Nat
  jpegBytes : Nat → List Nat

/-- Open, stat and PDF-open all succeed for this path. -/
def GoodFile (w : World) (p : String) : Prop :=
  (w.fileMeta p).openOk = true ∧ (w.fileMeta p).statOk = true ∧
    (w.pdfMeta p).openOk = true

instance (w : World) (p : String) : Decidable (GoodFile w p) := by
  unfold GoodFile; infer_instance

/-! ## `ProcessDocument` (the MetadataExtractor) -/

/-- The record a successful fresh extraction of `fp` builds (`newDoc` in the
source): the id is the FNV-1a fingerprint of the path, the name is
`path.Base`, the create date is the modification time, the file date comes
from the filename scan when it succeeds and is the modification time
otherwise, and the content is the base64 of the text of the first page. -/
def mkRecord (w : World) (fp : String) : ArchiveDoc :=
  { id := fnv64a fp
    name := goPathBase fp
    size := (w.fileMeta fp).size
    createDate := (w.fileMeta fp).modTime
    fileDate :=
      match sscanf6 (goPathBase fp) with
      | some (y, mo, d, h, mi, s) => goDate y mo d h mi s
      | none => (w.fileMeta fp).modTime
    pages := (w.pdfMeta fp).nPages
    content := base64Encode (w.pdfMeta fp).firstPageText
    filePath := fp }

/-- The function `ProcessDocument`: check the document cache under the path fingerprint and
return the stored record on a hit; otherwise open and stat the file, scan the
filename, open the PDF, build the record and store it.  Every error path
returns the cache unchanged, as the source does. -/
def ProcessDocument (w : World) (cache : DocCache) (fp : String) :
    Except String ArchiveDoc × DocCache :=
  match List.lookup (fnv64a fp) cache with
  | some d => (Except.ok d, cache)
  | none =>
    if (w.fileMeta fp).openOk = false then (Except.error openErrText, cache)
    else if (w.fileMeta fp).statOk = false then (Except.error statErrText, cache)
    else if (w.pdfMeta fp).openOk = false then (Except.error pdfErrText, cache)
    else (Except.ok (mkRecord w fp), (fnv64a fp, mkRecord w fp) :: cache)

/-! ## The `AllDocs` discovery and extraction pipeline -/

/-- The document path for a category entry and one of its children. -/
def docPath (root catName childName : String) : String :=
  root ++ slashStr ++ catName ++ slashStr ++ childName

/-- The glob `filepath.Glob(archivePath + "/*/*.pdf")`: the Go matcher has no
case for dotfiles, so `*` also matches dot-prefixed names; the glob descends
only into root children that are directories, and at the leaf level it matches
every entry whose name ends in `.pdf`, whatever its kind. -/
def discoverPaths (root : String) (w : World) : List String :=
  w.rootEntries.flatMap (fun e =>
    if e.isDir = true then
      (e.children.filter (fun c => goHasSuffix dotPdf c.name)).map
        (fun c => docPath root e.name c.name)
    else [])

/-- The extraction loop of `AllDocs`: run `ProcessDocument` over the
discovered paths, appending successful records in discovery order and
skipping failures; the document cache is threaded through. -/
def extractAll (w : World) : DocCache → List String → List ArchiveDoc × DocCache
  | cache, [] => ([], cache)
  | cache, p :: ps =>
    match ProcessDocument w cache p with
    | (Except.ok d, c') =>
      ((d :: (extractAll w c' ps).1), (extractAll w c' ps).2)
    | (Except.error _, c') => extractAll w c' ps

/-- Postcondition of the Go `sort.Sort` on `ArchiveDocs` (its documented
contract): the output is a permutation of the input with no inversion with
respect to `Less`; `sort.Sort` makes no stability guarantee, so any such
permutation is a possible outcome. -/
def SortSortPost (less : ArchiveDoc → ArchiveDoc → Bool)
    (l out : List ArchiveDoc) : Prop :=
  out.Perm l ∧ out.Pairwise (fun a b => less b a = false)

/-- Spec-side definition, following the words of the spec for the C3 claim: the
stable sort, in which an element moves before an earlier-discovered one only
when it strictly precedes it under the comparator, so equal keys keep
discovery order. -/
def insertKeepEarlier (less : ArchiveDoc → ArchiveDoc → Bool) (x : ArchiveDoc) :
    List ArchiveDoc → List ArchiveDoc
  | [] => [x]
  | y :: ys =>
    if less y x then y :: insertKeepEarlier less x ys else x :: y :: ys

/-- Spec-side definition (see `insertKeepEarlier`): stable insertion sort by
the comparator. -/
def specStableSort (less : ArchiveDoc → ArchiveDoc → Bool) :
    List ArchiveDoc → List ArchiveDoc
  | [] => []
  | x :: xs => insertKeepEarlier less x (specStableSort less xs)

/-- A possible response of `GET /alldocs/` from a given world and document
cache: the successfully extracted records, permuted by some `sort.Sort`
outcome for the `FileDate.After` comparator. -/
def AllDocsOutcome (root : String) (w : World) (cache : DocCache)
    (out : List ArchiveDoc) : Prop :=
  SortSortPost docLess (extractAll w cache (discoverPaths root w)).1 out

/-! ## The `Categories` handler -/

/-- Result of the `Categories` handler: `fatal` models `log.Fatal`, which
terminates the whole process, so no response is produced. -/
inductive CatResult where
  | fatal
  | ok (cats : List ArchiveCategory)
deriving DecidableEq

/-- The path `os.Open` receives for a root entry (`category` in the source,
an element of the `archivePath + "/*"` glob). -/
def catPath (root : String) (e : RootEntry) : String :=
  root ++ slashStr ++ e.name

/-- The loop body of `Categories` over the glob of the archive root: hidden
(dot-prefixed) entries are skipped before any filesystem access; an `os.Open`
or `Stat` failure on a non-hidden entry hits `log.Fatal`; a non-hidden
directory contributes its name and the length of the `"/*.pdf"` glob inside
it (every entry whose name ends in `.pdf`, whatever its kind). -/
def categoriesLoop (root : String) (w : World) :
    List RootEntry → CatResult
  | [] => CatResult.ok []
  | e :: es =>
    if goHasPrefix dotStr e.name = true then categoriesLoop root w es
    else if (w.fileMeta (catPath root e)).openOk = false then CatResult.fatal
    else if (w.fileMeta (catPath root e)).statOk = false then CatResult.fatal
    else if e.isDir = true then
      match categoriesLoop root w es with
      | CatResult.fatal => CatResult.fatal
      | CatResult.ok cats =>
        CatResult.ok
          ({ name := e.name
             elements := (e.children.filter
               (fun c => goHasSuffix dotPdf c.name)).length } :: cats)
    else categoriesLoop root w es

/-- The `Categories` handler (`GET /categories/`). -/
def CategoriesRun (root : String) (w : World) : CatResult :=
  categoriesLoop root w w.rootEntries

/-- The category names a `GET /categories/` response contains (none when the
handler dies in `log.Fatal`). -/
def catNames (root : String) (w : World) : List String :=
  match CategoriesRun root w with
  | CatResult.fatal => []
  | CatResult.ok cats => cats.map (fun c => c.name)

/-- Spec-side-shaped description of what `categoriesLoop` computes on an
error-free world: the non-hidden directories, each counted by its
`.pdf`-suffixed children. -/
def specCatsList (es : List RootEntry) : List ArchiveCategory :=
  (es.filter (fun e => !(goHasPrefix dotStr e.name) && e.isDir)).map
    (fun e =>
      { name := e.name
        elements := (e.children.filter (fun c => goHasSuffix dotPdf c.name)).length })

def specCategories (w : World) : List ArchiveCategory :=
  specCatsList w.rootEntries

/-! ## The `DocThumbnail` handler -/

/-- Observable trace of one `GET /thumbnail/:id` request after the id has
been parsed: the error text written with `Fprintf` (empty when none), the
thumbnail bytes written, whether the handler panicked (the source lacks a
`return` after the unknown-document write, so it goes on to dereference the
nil record; likewise a failed `poppler.Open` is only logged and the nil
handle is dereferenced), the thumbnail cache afterwards, and how many
`poppler.Open` and page-render calls the request performed. -/
structure ThumbRun where
  written : String
  body : List Nat
  panicked : Bool
  thumbCache : ThumbCache
  pdfOpens : Nat
  renders : Nat
deriving DecidableEq

/-- The `DocThumbnail` handler body: thumbnail-cache hit returns the stored
encoding; otherwise the document cache is consulted; a miss writes the
unknown-document text and then (no `return` in the source) dereferences the
nil record and panics; otherwise the PDF is opened (a failure is logged, not
returned, and the nil handle then panics), the first page rendered, encoded,
stored in the thumbnail cache and written. -/
def DocThumbnailRun (w : World) (dc : DocCache) (tc : ThumbCache)
    (docId : Nat) : ThumbRun :=
  match List.lookup docId tc with
  | some t =>
    { written := emptyStr, body := t.encoding, panicked := false,
      thumbCache := tc, pdfOpens := 0, renders := 0 }
  | none =>
    match List.lookup docId dc with
    | none =>
      { written := unknownDocText docId, body := [], panicked := true,
        thumbCache := tc, pdfOpens := 0, renders := 0 }
    | some doc =>
      if (w.pdfMeta doc.filePath).openOk = false then
        { written := emptyStr, body := [], panicked := true,
          thumbCache := tc, pdfOpens := 1, renders := 0 }
      else
        { written := emptyStr
          body := w.jpegBytes (w.renderImage doc.filePath)
          panicked := false
          thumbCache := (docId,
            { id := docId
              thumb := w.renderImage doc.filePath
              encoding := w.jpegBytes (w.renderImage doc.filePath) }) :: tc
          pdfOpens := 1
          renders := 1 }

/-! ## JSON serialisation of `ArchiveDoc` (collaborator model of
`encoding/json`) -/

inductive GoVal where
  | vint (n : Int)
  | vstr (s : String)
  | vtime (t : GoTime)
deriving DecidableEq

/-- The struct fields of `ArchiveDoc` visible to `encoding/json`, with the
names their tags declare, in declaration order.  `FilePath` is tagged
`json:"-"` and therefore never part of this set; both `CreateDate` and
`FileDate` are tagged `"timestamp"`. -/
def archiveDocTaggedFields (d : ArchiveDoc) : List (String × GoVal) :=
  [(kId, GoVal.vint (Int.ofNat d.id)),
   (kName, GoVal.vstr d.name),
   (kSize, GoVal.vint d.size),
   (kTimestamp, GoVal.vtime d.createDate),
   (kTimestamp, GoVal.vtime d.fileDate),
   (kPages, GoVal.vint d.pages),
   (kContent, GoVal.vstr d.content)]

/-- The field-set rule of `encoding/json` applied to `ArchiveDoc`: when several
fields at the same depth carry the same name and none dominates (here both
are tagged), all of them are dropped; the surviving fields are emitted in
declaration order. -/
def goJsonObject (d : ArchiveDoc) : List (String × GoVal) :=
  (archiveDocTaggedFields d).filter
    (fun kv => (archiveDocTaggedFields d).countP (fun kv2 => kv2.1 == kv.1) == 1)

/-! ## Concrete worlds and fixtures used by witnesses and counterexamples -/

/-- File metadata with every filesystem operation succeeding. -/
def goodMeta : FileMeta :=
  { openOk := true, statOk := true, size := 100, modTime := 7 }

/-- File metadata for an unreadable path. -/
def badOpenMeta : FileMeta :=
  { openOk := false, statOk := false, size := 0, modTime := 0 }

def goodPdf : PdfMeta :=
  { openOk := true, nPages := 3, firstPageText := emptyStr }

/-- A world with an empty archive root and a benign collaborator on every
path. -/
def trivWorld : World :=
  { rootEntries := []
    fileMeta := fun _ => goodMeta
    pdfMeta := fun _ => goodPdf
    renderImage := fun _ => 0
    jpegBytes := fun _ => [] }

def c2Root : String := "/a"

def c2GoodEntry : RootEntry := { name := "good", isDir := true, children := [] }

def c2BadEntry : RootEntry := { name := "bad", isDir := true, children := [] }

def c2BadPath : String := "/a/bad"

/-- A world whose archive root holds one healthy category and one entry that
fails `os.Open`. -/
def c2World : World :=
  { rootEntries := [c2GoodEntry, c2BadEntry]
    fileMeta := fun p => if p == c2BadPath then badOpenMeta else goodMeta
    pdfMeta := fun _ => goodPdf
    renderImage := fun _ => 0
    jpegBytes := fun _ => [] }

def c3DocA : ArchiveDoc :=
  { id := 1, name := "a.pdf", size := 10, createDate := 0, fileDate := 5,
    pages := 1, content := emptyStr, filePath := "/a/x/a.pdf" }

def c3DocB : ArchiveDoc :=
  { id := 2, name := "b.pdf", size := 20, createDate := 0, fileDate := 5,
    pages := 1, content := emptyStr, filePath := "/a/x/b.pdf" }

def c5Path : String := "/archive/tax/2021_03_04_10_15_30_report.pdf"

def c5Doc : ArchiveDoc := mkRecord trivWorld c5Path

def c5Cache : DocCache := [(fnv64a c5Path, c5Doc)]

def c6Path : String := "/archive/tax/broken.pdf"

/-- A world in which every path is unreadable. -/
def c6World : World :=
  { rootEntries := []
    fileMeta := fun _ => badOpenMeta
    pdfMeta := fun _ => goodPdf
    renderImage := fun _ => 0
    jpegBytes := fun _ => [] }

def c7Path : String := "/archive/tax/report.pdf"

def c7Doc : ArchiveDoc := mkRecord trivWorld c7Path

def c7Cache : DocCache := [(fnv64a c7Path, c7Doc)]

def c8Path : String := "/archive/tax/t.pdf"

def c8Doc : ArchiveDoc := mkRecord trivWorld c8Path

def c8Cache : DocCache := [(42, c8Doc)]

def c9Root : String := "/a"

def c9CatName : String := "cat"

/-- Children of the `cat` category: one ordinary `.pdf` file and one
subdirectory whose name also ends in `.pdf`. -/
def c9Children : List ChildEntry :=
  [{ name := "a.pdf", isDir := false }, { name := "sub.pdf", isDir := true }]

def c9Entry : RootEntry :=
  { name := c9CatName, isDir := true, children := c9Children }

def c9World : World :=
  { rootEntries := [c9Entry]
    fileMeta := fun _ => goodMeta
    pdfMeta := fun _ => goodPdf
    renderImage := fun _ => 0
    jpegBytes := fun _ => [] }

def c10Root : String := "/a"

def hidName : String := ".hid"

def xPdfName : String := "x.pdf"

def c10Child : ChildEntry := { name := xPdfName, isDir := false }

def c10Entry : RootEntry :=
  { name := hidName, isDir := true, children := [c10Child] }

/-- A world whose only category directory is hidden (dot-prefixed) and holds
one healthy PDF. -/
def c10World : World :=
  { rootEntries := [c10Entry]
    fileMeta := fun _ => goodMeta
    pdfMeta := fun _ => goodPdf
    renderImage := fun _ => 0
    jpegBytes := fun _ => [] }

/-! ## Helper lemmas about `ProcessDocument` -/

/-- A fresh extraction on a fully healthy path succeeds and stores the built
record under the path fingerprint. -/
theorem processDocument_fresh (w : World) (cache : DocCache) (fp : String)
    (hl : List.lookup (fnv64a fp) cache = none) (hg : GoodFile w fp) :
    ProcessDocument w cache fp =
      (Except.ok (mkRecord w fp), (fnv64a fp, mkRecord w fp) :: cache) := by
  obtain ⟨h1, h2, h3⟩ := hg
  simp [ProcessDocument, hl, h1, h2, h3]

/-- The function `ProcessDocument` never touches cache entries under other fingerprints. -/
theorem processDocument_snd_lookup (w : World) (cache : DocCache) (q : String)
    (k : Nat) (hk : k ≠ fnv64a q) :
    List.lookup k (ProcessDocument w cache q).2 = List.lookup k cache := by
  have hkb : (k == fnv64a q) = false := beq_eq_false_iff_ne.mpr hk
  unfold ProcessDocument
  cases hl : List.lookup (fnv64a q) cache with
  | some d => simp
  | none =>
    split_ifs <;> simp [List.lookup, hkb]

/-! ## Claim theorems -/

/-- Claim C6: extraction is atomic for the document cache.  Whenever
`ProcessDocument` reports an error — unreadable file, stat failure, or
PDF-open failure — the document cache it returns is exactly the one it was
given: no partial record is stored. -/
theorem extract_error_leaves_cache_unchanged
    (w : World) (cache : DocCache) (fp : String) (msg : String)
    (h : (ProcessDocument w cache fp).1 = Except.error msg) :
    (ProcessDocument w cache fp).2 = cache := by
  unfold ProcessDocument at h ⊢
  cases hl : List.lookup (fnv64a fp) cache with
  | some d => simp [hl] at h ⊢
  | none =>
    simp only [hl] at h ⊢
    split_ifs at h ⊢ <;> simp_all

/-- Witness for C6: an unreadable path in a concrete world, with the cache
returned unchanged. -/
theorem extract_error_leaves_cache_unchanged_witness :
    (ProcessDocument c6World [] c6Path).2 = ([] : DocCache) :=
  extract_error_leaves_cache_unchanged c6World [] c6Path openErrText rfl

/-- Claim C7: extraction is idempotent.  If one call to `ProcessDocument`
returns a record and a cache, running it again on the same path against that
cache returns the very same record and leaves the cache as it is — the second
call is a cache hit on the fingerprint the first call stored (or hit). -/
theorem extract_idempotent
    (w : World) (cache : DocCache) (fp : String) (d : ArchiveDoc) (c' : DocCache)
    (h : ProcessDocument w cache fp = (Except.ok d, c')) :
    ProcessDocument w c' fp = (Except.ok d, c') := by
  unfold ProcessDocument at h
  cases hl : List.lookup (fnv64a fp) cache with
  | some d0 =>
    rw [hl] at h
    have h2 : cache = c' := congrArg Prod.snd h
    have h1 : Except.ok d0 = Except.ok d := congrArg Prod.fst h
    have hd : d0 = d := by injection h1
    subst h2; subst hd
    unfold ProcessDocument
    rw [hl]
  | none =>
    rw [hl] at h
    split_ifs at h with h1 h2 h3
    · exact absurd (congrArg Prod.fst h) (by simp)
    · exact absurd (congrArg Prod.fst h) (by simp)
    · exact absurd (congrArg Prod.fst h) (by simp)
    · have hc : (fnv64a fp, mkRecord w fp) :: cache = c' := congrArg Prod.snd h
      have h1' : Except.ok (mkRecord w fp) = Except.ok d := congrArg Prod.fst h
      have hd : mkRecord w fp = d := by injection h1'
      subst hc; subst hd
      unfold ProcessDocument
      simp [List.lookup]

/-- Witness for C7: a concrete successful extraction, replayed against the
cache it produced. -/
theorem extract_idempotent_witness :
    ProcessDocument trivWorld c7Cache c7Path = (Except.ok c7Doc, c7Cache) :=
  extract_idempotent trivWorld [] c7Path c7Doc c7Cache rfl

/-- Claim C5: for a fresh extraction (the fingerprint is not yet cached) that
succeeds, the logical file date of the record is the `time.Date` of the six
scanned from the filename when the whole `"%d_%d_%d_%d_%d_%d"` scan succeeds,
fields scanned from the filename, and the modification time otherwise. -/
theorem extract_logical_file_date
    (w : World) (cache : DocCache) (fp : String) (d : ArchiveDoc) (c' : DocCache)
    (hl : List.lookup (fnv64a fp) cache = none)
    (h : ProcessDocument w cache fp = (Except.ok d, c')) :
    d.fileDate =
      (match sscanf6 (goPathBase fp) with
       | some (y, mo, dd, hh, mi, s) => goDate y mo dd hh mi s
       | none => (w.fileMeta fp).modTime) := by
  unfold ProcessDocument at h
  rw [hl] at h
  split_ifs at h with h1 h2 h3
  · exact absurd (congrArg Prod.fst h) (by simp)
  · exact absurd (congrArg Prod.fst h) (by simp)
  · exact absurd (congrArg Prod.fst h) (by simp)
  · have hd : mkRecord w fp = d := by
      have := congrArg Prod.fst h
      injection this
    rw [← hd]
    rfl

/-- Witness for C5: the filename `2021_03_04_10_15_30_report.pdf` yields the
logical date built from the six parsed fields. -/
theorem extract_logical_file_date_witness :
    c5Doc.fileDate = goDate 2021 3 4 10 15 30 :=
  Eq.trans
    (extract_logical_file_date trivWorld [] c5Path c5Doc c5Cache rfl rfl)
    rfl

/-- Claim C1 (behaviour the code actually has): for an id absent from both
caches, `DocThumbnail` writes the unknown-document text, performs no PDF open
and no render and stores nothing — but because the source lacks a `return`
after the error write, it then dereferences the nil record and the request
panics instead of ending with the error response. -/
theorem docThumbnail_unknown_id_panics :
    DocThumbnailRun trivWorld [] [] 5 =
      { written := unknownDocText 5
        body := []
        panicked := true
        thumbCache := []
        pdfOpens := 0
        renders := 0 } := rfl

/-- Claim C8: for an id whose record is in the document cache and whose file
the PDF collaborator can open, two sequential thumbnail requests do not
panic, return byte-identical bodies, and the second performs no PDF open and
no render — it is served from the thumbnail cache the first request left
behind (or that both hit). -/
theorem thumbnail_second_request_cached
    (w : World) (dc : DocCache) (tc : ThumbCache) (docId : Nat)
    (doc : ArchiveDoc)
    (hdc : List.lookup docId dc = some doc)
    (hpdf : (w.pdfMeta doc.filePath).openOk = true) :
    (DocThumbnailRun w dc tc docId).panicked = false ∧
    (DocThumbnailRun w dc (DocThumbnailRun w dc tc docId).thumbCache docId).panicked
      = false ∧
    (DocThumbnailRun w dc (DocThumbnailRun w dc tc docId).thumbCache docId).body
      = (DocThumbnailRun w dc tc docId).body ∧
    (DocThumbnailRun w dc (DocThumbnailRun w dc tc docId).thumbCache docId).pdfOpens
      = 0 ∧
    (DocThumbnailRun w dc (DocThumbnailRun w dc tc docId).thumbCache docId).renders
      = 0 := by
  cases htc : List.lookup docId tc with
  | some t => simp [DocThumbnailRun, htc]
  | none => simp [DocThumbnailRun, htc, hdc, hpdf, List.lookup]

/-- Witness for C8: a concrete document-cache entry, starting from an empty
thumbnail cache. -/
theorem thumbnail_second_request_cached_witness :
    (DocThumbnailRun trivWorld c8Cache [] 42).panicked = false ∧
    (DocThumbnailRun trivWorld c8Cache
        (DocThumbnailRun trivWorld c8Cache [] 42).thumbCache 42).panicked = false ∧
    (DocThumbnailRun trivWorld c8Cache
        (DocThumbnailRun trivWorld c8Cache [] 42).thumbCache 42).body
      = (DocThumbnailRun trivWorld c8Cache [] 42).body ∧
    (DocThumbnailRun trivWorld c8Cache
        (DocThumbnailRun trivWorld c8Cache [] 42).thumbCache 42).pdfOpens = 0 ∧
    (DocThumbnailRun trivWorld c8Cache
        (DocThumbnailRun trivWorld c8Cache [] 42).thumbCache 42).renders = 0 :=
  thumbnail_second_request_cached trivWorld c8Cache [] 42 c8Doc rfl rfl

/-- Claim C4 (behaviour the code actually has): the JSON object emitted for an
`ArchiveDoc` holds exactly the keys `id`, `name`, `size`, `pages` and
`content`, in that order.  `FilePath` is tagged `json:"-"` and never appears;
`CreateDate` and `FileDate` are both tagged `"timestamp"`, so `encoding/json`
drops the conflicting pair and no timestamp key is emitted at all. -/
theorem alldocs_json_omits_timestamps (d : ArchiveDoc) :
    (goJsonObject d).map Prod.fst = [kId, kName, kSize, kPages, kContent] ∧
    ((goJsonObject d).map Prod.fst).contains kTimestamp = false :=
  ⟨rfl, rfl⟩

/-- A non-hidden root entry that fails `os.Open` or `Stat` drives the
`Categories` loop into `log.Fatal`, wherever it sits in the enumeration. -/
theorem catLoop_fatal (root : String) (w : World) :
    ∀ es : List RootEntry,
      (∃ e ∈ es, goHasPrefix dotStr e.name = false ∧
        ((w.fileMeta (catPath root e)).openOk = false ∨
         (w.fileMeta (catPath root e)).statOk = false)) →
      categoriesLoop root w es = CatResult.fatal := by
  intro es
  induction es with
  | nil => rintro ⟨e, he, _⟩; simp at he
  | cons e es ih =>
    rintro ⟨f, hf, hnh, hfail⟩
    rcases List.mem_cons.mp hf with rfl | hmem
    · unfold categoriesLoop
      rcases hfail with ho | hs
      · simp [hnh, ho]
      · cases hoo : (w.fileMeta (catPath root f)).openOk with
        | false => simp [hnh, hoo]
        | true => simp [hnh, hoo, hs]
    · have hrec : categoriesLoop root w es = CatResult.fatal :=
        ih ⟨f, hmem, hnh, hfail⟩
      unfold categoriesLoop
      split_ifs <;> simp [hrec]

/-- Counterexample for C2 as stated: in `c2World` a non-hidden entry fails
`os.Open` while another non-hidden, healthy directory exists, yet the handler
dies in `log.Fatal` and returns no listing at all — the failing entry is not
skipped and the remaining category is not returned. -/
theorem categories_entry_failure_not_skipped :
    (∃ e ∈ c2World.rootEntries, goHasPrefix dotStr e.name = false ∧
        (c2World.fileMeta (catPath c2Root e)).openOk = false) ∧
    (∃ e ∈ c2World.rootEntries, goHasPrefix dotStr e.name = false ∧
        e.isDir = true ∧
        (c2World.fileMeta (catPath c2Root e)).openOk = true ∧
        (c2World.fileMeta (catPath c2Root e)).statOk = true) ∧
    CategoriesRun c2Root c2World = CatResult.fatal := by decide

/-- Claim C2 as amended: a failure statting or opening any non-hidden
category entry is fatal to the whole `Categories` operation (`log.Fatal`
terminates the process); the listing does not continue and no categories are
returned. -/
theorem categories_entry_failure_fatal (root : String) (w : World)
    (h : ∃ e ∈ w.rootEntries, goHasPrefix dotStr e.name = false ∧
        ((w.fileMeta (catPath root e)).openOk = false ∨
         (w.fileMeta (catPath root e)).statOk = false)) :
    CategoriesRun root w = CatResult.fatal :=
  catLoop_fatal root w w.rootEntries h

/-- Witness for the amended C2 at the concrete failing world. -/
theorem categories_entry_failure_fatal_witness :
    CategoriesRun c2Root c2World = CatResult.fatal :=
  categories_entry_failure_fatal c2Root c2World (by decide)

/-- On a world where every non-hidden root entry opens and stats cleanly, the
`Categories` loop returns exactly the non-hidden directories with their
`.pdf`-suffixed child counts. -/
theorem catLoop_ok (root : String) (w : World) :
    ∀ es : List RootEntry,
      (∀ e ∈ es, goHasPrefix dotStr e.name = false →
        (w.fileMeta (catPath root e)).openOk = true ∧
        (w.fileMeta (catPath root e)).statOk = true) →
      categoriesLoop root w es = CatResult.ok (specCatsList es) := by
  intro es
  induction es with
  | nil => intro h; rfl
  | cons e es ih =>
    intro h
    have hrec : categoriesLoop root w es = CatResult.ok (specCatsList es) :=
      ih (fun f hf => h f (List.mem_cons_of_mem e hf))
    cases hh : goHasPrefix dotStr e.name with
    | true =>
      unfold categoriesLoop
      simp [hh, hrec, specCatsList]
    | false =>
      obtain ⟨ho, hs⟩ := h e (List.mem_cons_self e es) hh
      cases hd : e.isDir with
      | true =>
        unfold categoriesLoop
        simp [hh, ho, hs, hd, hrec, specCatsList]
      | false =>
        unfold categoriesLoop
        simp [hh, ho, hs, hd, hrec, specCatsList]

/-- Counterexample for C9 as stated: in `c9World` the category `cat` holds
one `.pdf` file and one subdirectory named `sub.pdf`; the handler reports
`elements = 2`, while the number of `.pdf`-suffixed plain files directly
inside is 1 — `elements` does not equal the count of `.pdf` files. -/
theorem categories_elements_counts_pdf_directories :
    CategoriesRun c9Root c9World =
      CatResult.ok [{ name := c9CatName, elements := 2 }] ∧
    (c9Children.filter (fun c => !c.isDir && goHasSuffix dotPdf c.name)).length
      = 1 := by decide

/-- Claim C9 as amended: on an error-free world, `Categories` returns exactly
the non-hidden directories directly under the archive root, excluding
non-directories, and each `elements` equals the number of `.pdf`-suffixed
entries directly inside that directory (non-recursive) — entries of any kind,
since `filepath.Glob` also matches directories whose names end in `.pdf`. -/
theorem categories_elements_counts_entries (root : String) (w : World)
    (h : ∀ e ∈ w.rootEntries, goHasPrefix dotStr e.name = false →
        (w.fileMeta (catPath root e)).openOk = true ∧
        (w.fileMeta (catPath root e)).statOk = true) :
    CategoriesRun root w = CatResult.ok (specCategories w) :=
  catLoop_ok root w w.rootEntries h

/-- Witness for the amended C9 at the concrete world with a `sub.pdf`
directory. -/
theorem categories_elements_counts_entries_witness :
    CategoriesRun c9Root c9World = CatResult.ok (specCategories c9World) :=
  categories_elements_counts_entries c9Root c9World (by decide)

/-- Counterexample for C3 as stated: `sort.Sort` guarantees only a sorted
permutation, never stability.  For the two equal-date records `c3DocA`
(discovered first) and `c3DocB`, the reversed order `[c3DocB, c3DocA]`
satisfies the full `sort.Sort` postcondition for the `FileDate.After`
comparator, yet differs from the stable order `[c3DocA, c3DocB]` that keeps
discovery order on equal dates — so the output is not always the stable
sort. -/
theorem allDocs_sort_not_stable :
    ¬ (∀ l out : List ArchiveDoc, SortSortPost docLess l out →
        out = specStableSort docLess l) := by
  intro hcl
  have h := hcl [c3DocA, c3DocB] [c3DocB, c3DocA] (by constructor <;> decide)
  exact absurd h (by decide)

/-- Claim C3 as amended: every possible `GET /alldocs/` response is a
permutation of the successfully extracted records that is sorted by logical
file date descending (no record is followed by one with a strictly later
date); the relative order of records sharing a logical date is not
specified, because `sort.Sort` is not stable. -/
theorem allDocs_sorted_descending
    (root : String) (w : World) (cache : DocCache) (out : List ArchiveDoc)
    (h : AllDocsOutcome root w cache out) :
    out.Pairwise (fun a b => b.fileDate ≤ a.fileDate) ∧
    out.Perm (extractAll w cache (discoverPaths root w)).1 := by
  obtain ⟨hperm, hpair⟩ := h
  refine ⟨hpair.imp ?_, hperm⟩
  intro a b hab
  have : ¬ (a.fileDate < b.fileDate) := by
    intro hlt
    rw [show docLess b a = decide (a.fileDate < b.fileDate) from rfl] at hab
    rw [decide_eq_true hlt] at hab
    exact Bool.noConfusion hab
  exact le_of_not_lt this

/-- Witness for the amended C3 at a concrete world (empty archive, empty
outcome). -/
theorem allDocs_sorted_descending_witness :
    (([] : List ArchiveDoc).Pairwise (fun a b => b.fileDate ≤ a.fileDate)) ∧
    ([] : List ArchiveDoc).Perm
      (extractAll trivWorld [] (discoverPaths c2Root trivWorld)).1 :=
  allDocs_sorted_descending c2Root trivWorld [] [] (by constructor <;> decide)

/-- A healthy discovered path whose fingerprint is uncached and collides with
no other discovered path gets freshly extracted somewhere along the
`AllDocs` loop, and its record appears in the successful-record list. -/
theorem extractAll_mem_good (w : World) (p : String) :
    ∀ (paths : List String) (cache : DocCache),
      p ∈ paths →
      (∀ q ∈ paths, fnv64a q = fnv64a p → q = p) →
      List.lookup (fnv64a p) cache = none →
      GoodFile w p →
      mkRecord w p ∈ (extractAll w cache paths).1 := by
  intro paths
  induction paths with
  | nil => intro cache hp; simp at hp
  | cons q ps ih =>
    intro cache hp hinj hl hg
    by_cases hqp : q = p
    · subst hqp
      rw [show extractAll w cache (q :: ps) =
          (match ProcessDocument w cache q with
           | (Except.ok d, c') =>
             ((d :: (extractAll w c' ps).1), (extractAll w c' ps).2)
           | (Except.error _, c') => extractAll w c' ps) from rfl]
      rw [processDocument_fresh w cache q hl hg]
      exact List.mem_cons_self _ _
    · have hmem : p ∈ ps := by
        rcases List.mem_cons.mp hp with h | h
        · exact absurd h.symm hqp
        · exact h
      have hk : fnv64a p ≠ fnv64a q := by
        intro h
        exact hqp (hinj q (List.mem_cons_self q ps) h.symm)
      have hinj' : ∀ r ∈ ps, fnv64a r = fnv64a p → r = p :=
        fun r hr => hinj r (List.mem_cons_of_mem q hr)
      rcases hres : ProcessDocument w cache q with ⟨res, c'⟩
      have hl' : List.lookup (fnv64a p) c' = none := by
        have hpres := processDocument_snd_lookup w cache q (fnv64a p) hk
        rw [hres] at hpres
        rw [← hl]
        exact hpres
      cases res with
      | ok d =>
        rw [show extractAll w cache (q :: ps) =
            (match ProcessDocument w cache q with
             | (Except.ok d, c') =>
               ((d :: (extractAll w c' ps).1), (extractAll w c' ps).2)
             | (Except.error _, c') => extractAll w c' ps) from rfl]
        rw [hres]
        exact List.mem_cons_of_mem d (ih c' hmem hinj' hl' hg)
      | error msg =>
        rw [show extractAll w cache (q :: ps) =
            (match ProcessDocument w cache q with
             | (Except.ok d, c') =>
               ((d :: (extractAll w c' ps).1), (extractAll w c' ps).2)
             | (Except.error _, c') => extractAll w c' ps) from rfl]
        rw [hres]
        exact ih c' hmem hinj' hl' hg

/-- Every category name a successful `Categories` response contains is
non-hidden: the loop skips dot-prefixed entries before anything else. -/
theorem catLoop_names_not_hidden (root : String) (w : World) :
    ∀ (es : List RootEntry) (cats : List ArchiveCategory),
      categoriesLoop root w es = CatResult.ok cats →
      ∀ cat ∈ cats, goHasPrefix dotStr cat.name = false := by
  intro es
  induction es with
  | nil =>
    intro cats h
    have hnil : CatResult.ok ([] : List ArchiveCategory) = CatResult.ok cats := h
    have heq : ([] : List ArchiveCategory) = cats := by injection hnil
    subst heq
    intro cat hcat
    simp at hcat
  | cons e es ih =>
    intro cats h
    unfold categoriesLoop at h
    cases hh : goHasPrefix dotStr e.name with
    | true =>
      rw [hh] at h
      simp only [if_pos] at h
      exact ih cats h
    | false =>
      rw [hh] at h
      simp only [Bool.false_eq_true, if_false] at h
      cases ho : (w.fileMeta (catPath root e)).openOk with
      | false => simp [ho] at h
      | true =>
        cases hs : (w.fileMeta (catPath root e)).statOk with
        | false => simp [ho, hs] at h
        | true =>
          simp only [ho, hs, Bool.true_eq_false, if_false] at h
          cases hd : e.isDir with
          | false =>
            simp only [hd, Bool.false_eq_true, if_false] at h
            exact ih cats h
          | true =>
            simp only [hd, if_pos] at h
            cases hrec : categoriesLoop root w es with
            | fatal => rw [hrec] at h; exact CatResult.noConfusion h
            | ok cats2 =>
              rw [hrec] at h
              have hcons := h
              simp only [CatResult.ok.injEq] at hcons
              subst hcons
              intro cat hcat
              rcases List.mem_cons.mp hcat with hc0 | hmm
              · rw [hc0]
                exact hh
              · exact ih cats2 hrec cat hmm

/-- Claim C10: a `.pdf` child of a dot-prefixed category directory is still
matched by the `"/*/*.pdf"` glob (the Go matcher gives `*` no dotfile special
case), so — when its extraction succeeds fresh — its record is included in
the `/alldocs/` listing, while the same hidden directory never appears in the
`Categories` response. -/
theorem alldocs_includes_hidden_category_pdfs
    (root : String) (w : World) (cache : DocCache)
    (e : RootEntry) (c : ChildEntry)
    (he : e ∈ w.rootEntries) (hd : e.isDir = true)
    (hh : goHasPrefix dotStr e.name = true)
    (hc : c ∈ e.children) (hpdf : goHasSuffix dotPdf c.name = true)
    (hg : GoodFile w (docPath root e.name c.name))
    (hl : List.lookup (fnv64a (docPath root e.name c.name)) cache = none)
    (hinj : ∀ q ∈ discoverPaths root w,
      fnv64a q = fnv64a (docPath root e.name c.name) →
        q = docPath root e.name c.name) :
    docPath root e.name c.name ∈ discoverPaths root w ∧
    mkRecord w (docPath root e.name c.name) ∈
      (extractAll w cache (discoverPaths root w)).1 ∧
    e.name ∉ catNames root w := by
  have hmem : docPath root e.name c.name ∈ discoverPaths root w := by
    unfold discoverPaths
    refine List.mem_flatMap.mpr ⟨e, he, ?_⟩
    rw [if_pos hd]
    exact List.mem_map.mpr ⟨c, List.mem_filter.mpr ⟨hc, hpdf⟩, rfl⟩
  refine ⟨hmem, extractAll_mem_good w _ _ cache hmem hinj hl hg, ?_⟩
  unfold catNames
  cases hcr : CategoriesRun root w with
  | fatal => simp
  | ok cats =>
    intro hin
    rcases List.mem_map.mp hin with ⟨cat, hcat, hname⟩
    have hnh := catLoop_names_not_hidden root w w.rootEntries cats hcr cat hcat
    rw [hname] at hnh
    rw [hnh] at hh
    exact Bool.noConfusion hh

/-- Witness for C10: the hidden category `.hid` with the healthy file
`x.pdf`, starting from an empty cache. -/
theorem alldocs_includes_hidden_category_pdfs_witness :
    docPath c10Root hidName xPdfName ∈ discoverPaths c10Root c10World ∧
    mkRecord c10World (docPath c10Root hidName xPdfName) ∈
      (extractAll c10World [] (discoverPaths c10Root c10World)).1 ∧
    hidName ∉ catNames c10Root c10World :=
  alldocs_includes_hidden_category_pdfs c10Root c10World [] c10Entry c10Child
    (by decide) rfl (by decide) (by decide) (by decide) (by decide) rfl
    (by decide)
